import Mathlib

/-!
Verification of the CSV annotation service (`app/state.py`, `app/charting.py`).

The embedding is shallow: filesystem access is abstracted (a file's data rows
are carried in its `FileInfo`; directory creation and written outputs are
returned as explicit lists), pandas data frames become lists of rows, and the
fallible snapshot write becomes an explicit `saveOk : Bool` parameter.  Python
`ValueError` / `KeyError` / `RuntimeError` / I/O failures become the `Err`
inductive.  Row numbers are `Int` (Python ints from JSON may be arbitrary).
-/

deriving instance DecidableEq for Except

namespace XlsxAnnot

/-- Error taxonomy: `valueError` is Python `ValueError` (the spec's
`ValidationError`), `keyError` is `KeyError` (`NotFoundError`), `runtimeError`
is `RuntimeError` (`EmptyCatalogError` in export), `ioError` models an OS-level
failure of the snapshot write, and `encodingError` is only used by the
spec-side model of encoding detection. -/
inductive Err where
  | valueError (msg : String)
  | keyError (key : String)
  | runtimeError (msg : String)
  | ioError
  | encodingError (msg : String)
deriving DecidableEq, Repr

/-- Embeds `EventRecord` from `app/models.py`.  `event_type` is kept as a
string because events loaded from the JSON snapshot are not re-validated. -/
structure EventRecord where
  id : String
  event_type : String
  start_file : String
  start_row : Int
  end_file : String
  end_row : Int
deriving DecidableEq, Repr

/-- Embeds `CSVFileInfo` from `app/models.py`.  The `path` / chart fields are
dropped (pure filesystem bookkeeping); `data` carries the file's data rows as
read back at export time (the on-disk content, header excluded).  `row_count`
is the count computed at catalog load. -/
structure FileInfo (ρ : Type) where
  name : String
  row_count : Nat
  encoding : String
  data : List ρ
deriving DecidableEq, Repr

instance {ρ : Type} : Inhabited (FileInfo ρ) where
  default := ⟨"", 0, "", []⟩

/-- Embeds the in-memory state of `AnnotationManager`: the ordered catalog
(`_files`) and the event list (`_events`).  `_file_index` is recomputed by
`fileIndex` below. -/
structure Manager (ρ : Type) where
  files : List (FileInfo ρ)
  events : List EventRecord
deriving DecidableEq, Repr

/-- Embeds the `_file_index` lookup `self._file_index[name]` built as
`{info.name: idx for idx, info in enumerate(self._files)}`.  For the
duplicate-free catalogs produced by globbing a directory this first-match
recursion agrees with the Python dict (which would keep the last index). -/
def fileIndex {ρ : Type} (name : String) : List (FileInfo ρ) → Option Nat
  | [] => none
  | f :: rest =>
      if f.name = name then some 0 else (fileIndex name rest).map (· + 1)

/-- Embeds `AnnotationManager._detect_encoding_with_fallback`
(`app/state.py` lines 92-93), which ignores the file and returns `"utf-8"`. -/
def detectEncodingWithFallback (_filePath : String) : String :=
  "utf-8"

/-- Embeds `AnnotationManager._load_files`: the directory glob and
name-ascending sort are abstracted into the given `entries`
(name paired with the file's data rows, already sorted); each file's
`row_count` is the number of data rows and its encoding is whatever
`_detect_encoding_with_fallback` yields. -/
def loadFiles {ρ : Type} (entries : List (String × List ρ)) : List (FileInfo ρ) :=
  entries.map fun e =>
    { name := e.1
      row_count := e.2.length
      encoding := detectEncodingWithFallback e.1
      data := e.2 }

/-- Modelled from the spec (refinement target for the encoding-detection
claim): header-only parses are attempted against the ordered candidate list,
first success wins; if every candidate fails, an `EncodingError` aggregating
the last underlying failure is raised.  `headerParses e` abstracts "a
header-only parse of the file under encoding `e` succeeds". -/
def detectEncodingSpec (candidates : List String) (headerParses : String → Bool) :
    Except Err String :=
  match candidates with
  | [] => .error (.encodingError "no candidate encoding parses the header")
  | e :: rest =>
      if headerParses e then .ok e else detectEncodingSpec rest headerParses

/-- Embeds `AnnotationManager._validate_event` (`app/state.py` 247-275),
checks in source order: kind, file resolution, row bounds, span monotonicity. -/
def validateEvent {ρ : Type} (files : List (FileInfo ρ)) (event_type start_file : String)
    (start_row : Int) (end_file : String) (end_row : Int) : Except Err Unit :=
  if ¬(event_type = "overflow" ∨ event_type = "lost") then
    .error (.valueError "事件类型必须是 overflow 或 lost")
  else
    match fileIndex start_file files with
    | none => .error (.valueError ("起始文件 " ++ start_file ++ " 不存在"))
    | some start_pos =>
      match fileIndex end_file files with
      | none => .error (.valueError ("结束文件 " ++ end_file ++ " 不存在"))
      | some end_pos =>
        let start_info := files.getD start_pos default
        let end_info := files.getD end_pos default
        if ¬(1 ≤ start_row ∧ start_row ≤ (start_info.row_count : Int)) then
          .error (.valueError "起始行号应在 1 到 row_count 之间")
        else if ¬(1 ≤ end_row ∧ end_row ≤ (end_info.row_count : Int)) then
          .error (.valueError "结束行号应在 1 到 row_count 之间")
        else if start_pos > end_pos ∨ (start_pos = end_pos ∧ start_row > end_row) then
          .error (.valueError "事件范围必须从早到晚且行号递增")
        else
          .ok ()

/-- Embeds `AnnotationManager.add_event` (`app/state.py` 119-140).
`saveOk` models whether `_save_events()` succeeds; `freshId` stands for
`uuid4().hex`.  Mirroring the source, the record is appended to the in-memory
list before the snapshot write is attempted, so a failed write (`saveOk =
false`) propagates an error while the returned state keeps the new record. -/
def addEvent {ρ : Type} (saveOk : Bool) (freshId : String) (m : Manager ρ)
    (event_type start_file : String) (start_row : Int) (end_file : String)
    (end_row : Int) : Except Err EventRecord × Manager ρ :=
  match validateEvent m.files event_type start_file start_row end_file end_row with
  | .error e => (.error e, m)
  | .ok _ =>
      let event : EventRecord :=
        { id := freshId, event_type, start_file, start_row, end_file, end_row }
      let m' := { m with events := m.events ++ [event] }
      if saveOk then (.ok event, m') else (.error .ioError, m')

/-- Embeds `AnnotationManager.delete_event` (`app/state.py` 142-148):
filter out the id, raise `KeyError` when nothing was removed, otherwise
install the filtered list and persist. -/
def deleteEvent {ρ : Type} (saveOk : Bool) (m : Manager ρ) (event_id : String) :
    Except Err Unit × Manager ρ :=
  let remaining := m.events.filter fun e => e.id ≠ event_id
  if remaining.length = m.events.length then (.error (.keyError event_id), m)
  else
    let m' := { m with events := remaining }
    if saveOk then (.ok (), m') else (.error .ioError, m')

/-- Helper for `updateEventType`: mutate the first record whose id matches,
returning the mutated record and the updated list (the Python for-loop
mutates the record in place and returns it). -/
def updateFirst (event_id new_type : String) : List EventRecord →
    Option (EventRecord × List EventRecord)
  | [] => none
  | e :: rest =>
      if e.id = event_id then
        let e' := { e with event_type := new_type }
        some (e', e' :: rest)
      else
        (updateFirst event_id new_type rest).map fun p => (p.1, e :: p.2)

/-- Embeds `AnnotationManager.update_event_type` (`app/state.py` 150-161):
kind check first, then in-place mutation of the first matching record followed
by the persist, `KeyError` when no record matches. -/
def updateEventType {ρ : Type} (saveOk : Bool) (m : Manager ρ)
    (event_id new_type : String) : Except Err EventRecord × Manager ρ :=
  if ¬(new_type = "overflow" ∨ new_type = "lost") then
    (.error (.valueError "事件类型必须是 overflow 或 lost"), m)
  else
    match updateFirst event_id new_type m.events with
    | none => (.error (.keyError event_id), m)
    | some p =>
        let m' := { m with events := p.2 }
        if saveOk then (.ok p.1, m') else (.error .ioError, m')

/-- Derived per-file, per-event row range (the dict literal built inside
`AnnotationManager._build_file_ranges`). -/
structure RowRange where
  event_type : String
  start_row : Int
  end_row : Int
deriving DecidableEq, Repr

/-- The dict literal appended for one file inside the loop of
`_build_file_ranges` (`app/state.py` 285-299): `start_row`/`end_row` default
to `1` and the file's full `row_count` and are overridden at the event's
start and end file. -/
def eventRangeAt {ρ : Type} (files : List (FileInfo ρ)) (e : EventRecord)
    (start_idx end_idx file_idx : Nat) : RowRange :=
  { event_type := e.event_type
    start_row := if file_idx = start_idx then e.start_row else 1
    end_row :=
      if file_idx = end_idx then e.end_row
      else ((files.getD file_idx default).row_count : Int) }

/-- Expansion of one event across the catalog: the body of the outer loop of
`_build_file_ranges` (`app/state.py` 279-299).  `file_idx` runs over
`range(start_idx, end_idx + 1)`.  A missing file raises `KeyError` as the
Python dict lookup would. -/
def expandEvent {ρ : Type} (files : List (FileInfo ρ)) (e : EventRecord) :
    Except Err (List (String × RowRange)) :=
  match fileIndex e.start_file files with
  | none => .error (.keyError e.start_file)
  | some start_idx =>
    match fileIndex e.end_file files with
    | none => .error (.keyError e.end_file)
    | some end_idx =>
      .ok <| (List.range' start_idx (end_idx + 1 - start_idx)).map fun file_idx =>
        ((files.getD file_idx default).name, eventRangeAt files e start_idx end_idx file_idx)

/-- Embeds `AnnotationManager._build_file_ranges` (`app/state.py` 277-300).
The `events_map` dict keyed by file name, filled with `setdefault(...).append`
in event-major order, is represented as the flat association list; the ranges
of one file are recovered by `rangesFor` in the same order. -/
def buildFileRanges {ρ : Type} (files : List (FileInfo ρ)) :
    List EventRecord → Except Err (List (String × RowRange))
  | [] => .ok []
  | e :: rest => do
      let head ← expandEvent files e
      let tail ← buildFileRanges files rest
      pure (head ++ tail)

/-- The per-key view of the association list: `events_by_file.get(name)`,
with a missing key giving the empty list. -/
def rangesFor (assoc : List (String × RowRange)) (name : String) : List RowRange :=
  assoc.filterMap fun p => if p.1 = name then some p.2 else none

/-- The clipped 0-based start index: `max(event["start_row"] - 1, 0)`. -/
def clipStart (r : RowRange) : Int :=
  max (r.start_row - 1) 0

/-- The clipped 0-based end index: `min(event["end_row"] - 1, len(df) - 1)`. -/
def clipEnd (r : RowRange) (n : Nat) : Int :=
  min (r.end_row - 1) ((n : Int) - 1)

/-- Flag-marking state threaded through the range loop of
`export_marked_data`: the two added boolean columns plus the
`has_annotation` / `file_has_overflow` / `file_has_lost` flags. -/
structure MarkState where
  ov : List Bool
  lost : List Bool
  hasAnn : Bool
  hasOv : Bool
  hasLost : Bool
deriving DecidableEq, Repr

/-- Sets a flag column to true on 0-based indices in `[s, e]`:
`df.iloc[start_idx : end_idx + 1, column_index] = 1`. -/
def markRows (flags : List Bool) (s e : Int) : List Bool :=
  flags.mapIdx fun i b => if s ≤ (i : Int) ∧ (i : Int) ≤ e then true else b

/-- The `for event in ranges` loop of `export_marked_data`
(`app/state.py` 208-219): clip, skip empty spans, otherwise set the column
named by the event kind.  The data columns of the frame are abstracted as an
opaque payload, so `df.columns.get_loc(event["event_type"])` resolves exactly
the two appended flag columns and raises `KeyError` for any other kind. -/
def applyRanges (n : Nat) : List RowRange → MarkState → Except Err MarkState
  | [], st => .ok st
  | r :: rest, st =>
      let s := clipStart r
      let e := clipEnd r n
      if s > e then applyRanges n rest st
      else if r.event_type = "overflow" then
        applyRanges n rest
          { st with ov := markRows st.ov s e, hasAnn := true, hasOv := true }
      else if r.event_type = "lost" then
        applyRanges n rest
          { st with lost := markRows st.lost s e, hasAnn := true, hasLost := true }
      else .error (.keyError r.event_type)

/-- Data rows zipped with their two flag columns: the annotated frame. -/
def zipFlags {ρ : Type} (data : List ρ) (ov lost : List Bool) : List (ρ × Bool × Bool) :=
  data.zip (ov.zip lost)

/-- One written output file: its path and its rows (payload, overflow flag,
lost flag). -/
structure ExportedFile (ρ : Type) where
  path : String
  rows : List (ρ × Bool × Bool)
deriving DecidableEq, Repr

/-- The per-file body of the export loop (`app/state.py` 182-240): skip files
with no ranges, skip empty frames, mark the ranges, skip the file when
`has_annotation` stayed false, otherwise emit the annotated file followed by
the overflow / lost subsets when their flags were raised and are non-empty.
The multi-encoding re-read of the CSV is abstracted into `info.data` (the
claims under verification do not involve a read failure). -/
def exportForFile {ρ : Type} (outDir : String) (info : FileInfo ρ)
    (ranges : List RowRange) : Except Err (List (ExportedFile ρ)) :=
  if ranges.isEmpty then .ok []
  else
    let df := info.data
    if df.isEmpty then .ok []
    else do
      let n := df.length
      let st ← applyRanges n ranges
        ⟨List.replicate n false, List.replicate n false, false, false, false⟩
      if st.hasAnn = false then pure []
      else
        let annotated := zipFlags df st.ov st.lost
        let stem := info.name.dropRight 4
        let general : ExportedFile ρ :=
          ⟨outDir ++ "/" ++ stem ++ "_annotated.csv", annotated⟩
        let ovOuts :=
          if st.hasOv then
            let orows := annotated.filter fun row => row.2.1
            if orows.isEmpty then []
            else [ExportedFile.mk (outDir ++ "/overflow/" ++ stem ++ "_overflow.csv") orows]
          else []
        let lostOuts :=
          if st.hasLost then
            let lrows := annotated.filter fun row => row.2.2
            if lrows.isEmpty then []
            else [ExportedFile.mk (outDir ++ "/lost/" ++ stem ++ "_lost.csv") lrows]
          else []
        pure ([general] ++ ovOuts ++ lostOuts)

/-- The `for info in self._files` loop of `export_marked_data`, concatenating
the per-file outputs in catalog order. -/
def exportLoop {ρ : Type} (outDir : String) (assoc : List (String × RowRange)) :
    List (FileInfo ρ) → Except Err (List (ExportedFile ρ))
  | [] => .ok []
  | info :: rest => do
      let outs ← exportForFile outDir info (rangesFor assoc info.name)
      let more ← exportLoop outDir assoc rest
      pure (outs ++ more)

/-- Embeds `AnnotationManager.export_marked_data` (`app/state.py` 166-242).
The first component records the directories created by the three `mkdir`
calls, in program order; they are created before the empty-catalog check, so
they appear even when the call then fails with `RuntimeError`. -/
def exportMarkedData {ρ : Type} (m : Manager ρ) (outDir : String) :
    List String × Except Err (List (ExportedFile ρ)) :=
  let created := [outDir, outDir ++ "/overflow", outDir ++ "/lost"]
  ( created,
    if m.files.isEmpty then .error (.runtimeError "尚未加载任何CSV文件")
    else do
      let assoc ← buildFileRanges m.files m.events
      exportLoop outDir assoc m.files )

/-- A parsed CSV cell as pandas sees it after type inference: a numeric value,
a non-numeric string, or a missing value (NaN).  Numeric payloads are carried
as `Int` (their exact value is irrelevant to the sampling claims). -/
inductive Cell where
  | numC (v : Int)
  | strC (s : String)
  | nanC
deriving DecidableEq, Repr

/-- A data row restricted to the selected columns (`usecols` projection). -/
abbrev Row := List Cell

/-- Whether a cell is compatible with a numeric column dtype: numbers and
missing values are, strings are not. -/
def cellNumericOk : Cell → Bool
  | .numC _ => true
  | .strC _ => false
  | .nanC => true

/-- Column `j` of a chunk has numeric dtype iff every cell in it is numeric or
missing (pandas per-chunk type inference). -/
def colNumeric (j : Nat) (chunk : List Row) : Bool :=
  chunk.all fun r => cellNumericOk (r.getD j .nanC)

/-- Embeds `chunk.select_dtypes(include="number").empty`
(`app/charting.py` 110-111): true when the chunk has no rows or none of the
`cols` selected columns is numeric in it. -/
def numericEmpty (cols : Nat) (chunk : List Row) : Bool :=
  chunk.isEmpty || (List.range cols).all fun j => !(colNumeric j chunk)

/-- Embeds `numeric_chunk.reindex(columns=selected_columns, fill_value=np.nan)`
(`app/charting.py` 116): keep the cells of numeric columns, fill the rest
with NaN. -/
def projectRow (cols : Nat) (chunk : List Row) (r : Row) : Row :=
  (List.range cols).map fun j =>
    if colNumeric j chunk then r.getD j .nanC else .nanC

/-- Exact-arithmetic model of `np.linspace(0, n - 1, take, dtype=int)`
(`app/charting.py` 122): the k-th index is the floor of `k * (n-1) / (take-1)`.
For `take = 1` the Nat division by zero yields `[0]`, matching numpy; floating
point is idealized to exact rationals. -/
def linspaceIdx (n tk : Nat) : List Nat :=
  (List.range tk).map fun k => k * (n - 1) / (tk - 1)

/-- The sampler's streaming state (`app/charting.py` 95-98): accumulated row
count, emitted sample count, rows consumed so far, and the sample buffer of
(absolute 1-indexed row number, projected row) pairs. -/
structure SamplerState where
  total_rows : Nat
  sampled_rows : Nat
  offset : Nat
  sample : List (Nat × Row)
deriving DecidableEq, Repr

/-- One iteration of the chunk loop of `generate_chart_from_csv`
(`app/charting.py` 106-128): count the chunk, skip it if its numeric
projection is empty, otherwise — while the sample budget is not exhausted —
emit `min(len(chunk), remaining)` evenly spaced rows tagged with
`offset + index + 1`. -/
def processChunk (samplePoints cols : Nat) (st : SamplerState) (chunk : List Row) :
    SamplerState :=
  let chunkLength := chunk.length
  let total := st.total_rows + chunkLength
  if numericEmpty cols chunk then
    { st with total_rows := total, offset := st.offset + chunkLength }
  else if st.sampled_rows < samplePoints then
    let remaining := samplePoints - st.sampled_rows
    let tk := min chunkLength remaining
    if 0 < tk then
      let indices := linspaceIdx chunkLength tk
      let selected := indices.map fun i =>
        (st.offset + i + 1, projectRow cols chunk (chunk.getD i []))
      { total_rows := total
        sampled_rows := st.sampled_rows + selected.length
        offset := st.offset + chunkLength
        sample := st.sample ++ selected }
    else
      { st with total_rows := total, offset := st.offset + chunkLength }
  else
    { st with total_rows := total, offset := st.offset + chunkLength }

/-- Splits a row list into consecutive chunks of `k` rows (the `chunksize`
streaming read); `k = 0` is never used (pandas rejects it) and is mapped to
the empty chunk list to keep the function total. -/
def chunksOf {α : Type} (k : Nat) : List α → List (List α)
  | [] => []
  | x :: xs =>
      if k = 0 then []
      else (x :: xs).take k :: chunksOf k ((x :: xs).drop k)
termination_by l => l.length
decreasing_by
  rename_i h
  have hk : 0 < k := Nat.pos_of_ne_zero h
  simpa [List.length_drop] using Nat.sub_lt (Nat.succ_pos xs.length) hk

/-- Embeds the whole streaming loop of `generate_chart_from_csv`
(`app/charting.py` 100-128) on a file whose rows (projected to the `cols`
selected columns) are given: fold `processChunk` over the chunks. -/
def generateChartSample (samplePoints chunkSize cols : Nat) (rows : List Row) :
    SamplerState :=
  (chunksOf chunkSize rows).foldl (processChunk samplePoints cols) ⟨0, 0, 0, []⟩

/-- Sum of the chunk lengths of a chunk list. -/
def sumLen (chunks : List (List Row)) : Nat :=
  (chunks.map List.length).sum

/-- The sample the code produces when the budget never fills: every
non-skipped chunk contributes all of its rows in order, tagged with absolute
row numbers. -/
def fullSample (cols offset : Nat) : List (List Row) → List (Nat × Row)
  | [] => []
  | c :: rest =>
      (if numericEmpty cols c then []
       else (List.range c.length).map fun i =>
         (offset + i + 1, projectRow cols c (c.getD i []))) ++
      fullSample cols (offset + c.length) rest

/-- Row `i` of chunk `chunk` carries an actual numeric value in one of the
selected columns: some column `j` has numeric dtype in the chunk and the
row's cell there is a number (not NaN). -/
def rowHasNumericValue (cols : Nat) (chunk : List Row) (i : Nat) : Prop :=
  ∃ j, j < cols ∧ colNumeric j chunk = true ∧
    ∃ v, (chunk.getD i []).getD j Cell.nanC = Cell.numC v

/-! Concrete fixtures mirroring `tests/test_state.py`: two catalog files of
three data rows each (payload column abstracted to one `Int`), and one
overflow event spanning row 2 of the first file to row 2 of the second. -/

def fileA : FileInfo Int := ⟨"Rec1901010000.csv", 3, "utf-8", [100, 110, 120]⟩

def fileB : FileInfo Int := ⟨"Rec1901010100.csv", 3, "utf-8", [130, 140, 150]⟩

def spanEvent : EventRecord :=
  ⟨"e1", "overflow", "Rec1901010000.csv", 2, "Rec1901010100.csv", 2⟩

def twoFileCatalog : Manager Int := ⟨[fileA, fileB], [spanEvent]⟩

/-- C1: on the two-file catalog (3 data rows each) with the single overflow
event spanning file 1 row 2 to file 2 row 2, export produces the annotated
first file with overflow flags `[0,1,1]`, the annotated second file with
flags `[1,1,0]`, and for each file an overflow-only output holding exactly
the rows whose overflow flag is set. -/
theorem c1_export_two_file_span :
    (exportMarkedData twoFileCatalog "out").2 = Except.ok
      [ ⟨"out/Rec1901010000_annotated.csv",
          [(100, false, false), (110, true, false), (120, true, false)]⟩,
        ⟨"out/overflow/Rec1901010000_overflow.csv",
          [(110, true, false), (120, true, false)]⟩,
        ⟨"out/Rec1901010100_annotated.csv",
          [(130, true, false), (140, true, false), (150, false, false)]⟩,
        ⟨"out/overflow/Rec1901010100_overflow.csv",
          [(130, true, false), (140, true, false)]⟩ ] := by
  rfl

/-- C5: the code violates the claim that a failed snapshot write leaves the
in-memory list unchanged — all three mutations mutate the list (or record)
before `_save_events()` and do not roll back, so with a failing write
(`saveOk = false`) the error propagates while the in-memory state keeps the
mutation. -/
theorem c5_mutation_not_rolled_back :
    ((addEvent false "id9" twoFileCatalog "overflow" "Rec1901010000.csv" 1
        "Rec1901010000.csv" 1).1 = Except.error Err.ioError
      ∧ (addEvent false "id9" twoFileCatalog "overflow" "Rec1901010000.csv" 1
        "Rec1901010000.csv" 1).2.events ≠ twoFileCatalog.events)
    ∧ ((deleteEvent false twoFileCatalog "e1").1 = Except.error Err.ioError
      ∧ (deleteEvent false twoFileCatalog "e1").2.events ≠ twoFileCatalog.events)
    ∧ ((updateEventType false twoFileCatalog "e1" "lost").1 = Except.error Err.ioError
      ∧ (updateEventType false twoFileCatalog "e1" "lost").2.events
          ≠ twoFileCatalog.events) := by
  decide

/-- C6 counterexample: catalog-load encoding detection ignores the candidate
encodings entirely — it returns `"utf-8"` for every file, while the claimed
first-success-wins detection would fail with an `EncodingError` for a file
whose header parses under no candidate. -/
theorem c6_counterexample_no_fallback :
    detectEncodingWithFallback "Rec1901010000.csv" = "utf-8"
    ∧ (loadFiles [("Rec1901010000.csv", [(100 : Int)])]).map (fun f => f.encoding)
        = ["utf-8"]
    ∧ detectEncodingSpec ["gbk", "utf-8", "utf-8-sig"] (fun _ => false)
        = Except.error (Err.encodingError "no candidate encoding parses the header") := by
  decide

/-- C6 amended: during catalog load no encoding detection is attempted —
every file's encoding is unconditionally recorded as `"utf-8"` and the load
never fails with an `EncodingError`. -/
theorem c6_amended_no_detection {ρ : Type} (entries : List (String × List ρ))
    (f : FileInfo ρ) (hf : f ∈ loadFiles entries) : f.encoding = "utf-8" := by
  simp only [loadFiles, List.mem_map] at hf
  obtain ⟨e, _, rfl⟩ := hf
  rfl

/-- Witness for the amended C6 at a concrete one-file directory listing. -/
theorem c6_amended_witness :
    (FileInfo.mk "Rec1.csv" 1 "utf-8" [(0 : Int)])
        ∈ loadFiles [("Rec1.csv", [(0 : Int)])]
    ∧ (FileInfo.mk "Rec1.csv" 1 "utf-8" [(0 : Int)]).encoding = "utf-8" := by
  refine ⟨by decide, c6_amended_no_detection [("Rec1.csv", [(0 : Int)])] _ (by decide)⟩

/-- Helper: when no stored record carries the id, the in-place update loop of
`update_event_type` finds nothing. -/
theorem updateFirst_eq_none (event_id new_type : String) (l : List EventRecord)
    (h : ∀ e ∈ l, e.id ≠ event_id) : updateFirst event_id new_type l = none := by
  induction l with
  | nil => rfl
  | cons e rest ih =>
      have he : e.id ≠ event_id := h e (List.mem_cons_self e rest)
      simp only [updateFirst, if_neg he]
      rw [ih fun x hx => h x (List.mem_cons_of_mem e hx)]
      rfl

/-- C9: deleting an unknown id, and updating an unknown id with a recognized
kind, both fail with `KeyError` and leave the manager (in particular its
stored event list) exactly as it was — whether or not the snapshot write
would have succeeded. -/
theorem c9_unknown_id_not_found {ρ : Type} (m : Manager ρ) (event_id kind : String)
    (saveOk : Bool) (hk : kind = "overflow" ∨ kind = "lost")
    (h : ∀ e ∈ m.events, e.id ≠ event_id) :
    deleteEvent saveOk m event_id = (Except.error (Err.keyError event_id), m)
    ∧ updateEventType saveOk m event_id kind
        = (Except.error (Err.keyError event_id), m) := by
  constructor
  · have hf : (m.events.filter fun e => e.id ≠ event_id) = m.events :=
      List.filter_eq_self.mpr (by intro a ha; simpa using h a ha)
    have hc : (m.events.filter fun e => e.id ≠ event_id).length = m.events.length := by
      rw [hf]
    simp only [deleteEvent]
    rw [if_pos hc]
  · have hu := updateFirst_eq_none event_id kind m.events h
    simp only [updateEventType, if_neg (not_not_intro hk), hu]

/-- Witness for C9 at the concrete two-file catalog and an id no event has. -/
theorem c9_witness :
    deleteEvent true twoFileCatalog "missing"
        = (Except.error (Err.keyError "missing"), twoFileCatalog)
    ∧ updateEventType true twoFileCatalog "missing" "lost"
        = (Except.error (Err.keyError "missing"), twoFileCatalog) :=
  c9_unknown_id_not_found twoFileCatalog "missing" "lost" true (Or.inr rfl)
    (by decide)

/-- C10: export creates the output directory and its `overflow` and `lost`
subdirectories unconditionally, before the empty-catalog check — so a call on
an empty catalog still records all three directory creations and then fails
with the `RuntimeError`, and the subdirectories are created even when no
filtered output is ever written into them. -/
theorem c10_dirs_created_before_empty_check {ρ : Type} (m : Manager ρ)
    (outDir : String) :
    (exportMarkedData m outDir).1 = [outDir, outDir ++ "/overflow", outDir ++ "/lost"]
    ∧ (m.files = [] →
        (exportMarkedData m outDir).2
          = Except.error (Err.runtimeError "尚未加载任何CSV文件")) := by
  refine ⟨rfl, fun h => ?_⟩
  simp [exportMarkedData, h]

/-- Witness for C10 on an empty catalog. -/
theorem c10_witness :
    (exportMarkedData (Manager.mk ([] : List (FileInfo Int)) []) "out").1
        = ["out", "out/overflow", "out/lost"]
    ∧ (exportMarkedData (Manager.mk ([] : List (FileInfo Int)) []) "out").2
        = Except.error (Err.runtimeError "尚未加载任何CSV文件") :=
  ⟨(c10_dirs_created_before_empty_check _ "out").1,
   (c10_dirs_created_before_empty_check _ "out").2 rfl⟩

/-- C3: for an add-event request with a recognized kind whose two files both
resolve in the catalog (to ordinals `si`, `ei`), the call rejects with a
`ValueError` (the spec's `ValidationError`) exactly when `si > ei`, or
`si = ei` with `start_row > end_row`, or either row lies outside
`[1, row_count]` of its file — and in every other case it accepts, appends
the freshly built record to the stored list, and returns that record. -/
theorem c3_add_event_validation {ρ : Type} (m : Manager ρ)
    (freshId kind start_file end_file : String) (start_row end_row : Int)
    (si ei : Nat)
    (hk : kind = "overflow" ∨ kind = "lost")
    (hs : fileIndex start_file m.files = some si)
    (he : fileIndex end_file m.files = some ei) :
    ((si > ei ∨ (si = ei ∧ start_row > end_row)
        ∨ ¬(1 ≤ start_row ∧ start_row ≤ ((m.files.getD si default).row_count : Int))
        ∨ ¬(1 ≤ end_row ∧ end_row ≤ ((m.files.getD ei default).row_count : Int))) →
      ∃ msg, addEvent true freshId m kind start_file start_row end_file end_row
        = (Except.error (Err.valueError msg), m))
    ∧ (¬(si > ei ∨ (si = ei ∧ start_row > end_row)
        ∨ ¬(1 ≤ start_row ∧ start_row ≤ ((m.files.getD si default).row_count : Int))
        ∨ ¬(1 ≤ end_row ∧ end_row ≤ ((m.files.getD ei default).row_count : Int))) →
      addEvent true freshId m kind start_file start_row end_file end_row
        = (Except.ok ⟨freshId, kind, start_file, start_row, end_file, end_row⟩,
           ⟨m.files, m.events
              ++ [⟨freshId, kind, start_file, start_row, end_file, end_row⟩]⟩)) := by
  have hkk := not_not_intro hk
  constructor
  · intro hbad
    by_cases h1 : 1 ≤ start_row ∧ start_row ≤ ((m.files.getD si default).row_count : Int)
    · by_cases h2 : 1 ≤ end_row ∧ end_row ≤ ((m.files.getD ei default).row_count : Int)
      · have h3 : si > ei ∨ (si = ei ∧ start_row > end_row) := by tauto
        refine ⟨"事件范围必须从早到晚且行号递增", ?_⟩
        simp only [addEvent, validateEvent, hs, he]
        rw [if_neg hkk, if_neg (not_not_intro h1), if_neg (not_not_intro h2), if_pos h3]
      · refine ⟨"结束行号应在 1 到 row_count 之间", ?_⟩
        simp only [addEvent, validateEvent, hs, he]
        rw [if_neg hkk, if_neg (not_not_intro h1), if_pos h2]
    · refine ⟨"起始行号应在 1 到 row_count 之间", ?_⟩
      simp only [addEvent, validateEvent, hs, he]
      rw [if_neg hkk, if_pos h1]
  · intro hgood
    push_neg at hgood
    obtain ⟨hA, hB, hC, hD⟩ := hgood
    have h3 : ¬(si > ei ∨ (si = ei ∧ start_row > end_row)) := by
      push_neg
      exact ⟨hA, hB⟩
    simp only [addEvent, validateEvent, hs, he]
    rw [if_neg hkk, if_neg (not_not_intro hC), if_neg (not_not_intro hD), if_neg h3]
    rfl

/-- Witness for C3: on the concrete two-file catalog, a valid spanning
request is accepted and appended, and a reversed span is rejected. -/
theorem c3_witness :
    ((1 > 0 ∨ (1 = 0 ∧ (3 : Int) > 1)
        ∨ ¬((1 : Int) ≤ 3 ∧ (3 : Int) ≤ ((twoFileCatalog.files.getD 1 default).row_count : Int))
        ∨ ¬((1 : Int) ≤ 1 ∧ (1 : Int) ≤ ((twoFileCatalog.files.getD 0 default).row_count : Int))) →
      ∃ msg, addEvent true "id2" twoFileCatalog "lost" "Rec1901010100.csv" 3
          "Rec1901010000.csv" 1
        = (Except.error (Err.valueError msg), twoFileCatalog))
    ∧ (¬(1 > 0 ∨ (1 = 0 ∧ (3 : Int) > 1)
        ∨ ¬((1 : Int) ≤ 3 ∧ (3 : Int) ≤ ((twoFileCatalog.files.getD 1 default).row_count : Int))
        ∨ ¬((1 : Int) ≤ 1 ∧ (1 : Int) ≤ ((twoFileCatalog.files.getD 0 default).row_count : Int))) →
      addEvent true "id2" twoFileCatalog "lost" "Rec1901010100.csv" 3
          "Rec1901010000.csv" 1
        = (Except.ok ⟨"id2", "lost", "Rec1901010100.csv", 3, "Rec1901010000.csv", 1⟩,
           ⟨twoFileCatalog.files, twoFileCatalog.events
              ++ [⟨"id2", "lost", "Rec1901010100.csv", 3, "Rec1901010000.csv", 1⟩]⟩)) :=
  c3_add_event_validation twoFileCatalog "id2" "lost" "Rec1901010100.csv"
    "Rec1901010000.csv" 3 1 1 0 (Or.inr rfl) (by decide) (by decide)

/-- Helper: a successful catalog lookup returns an in-range ordinal. -/
theorem fileIndex_lt {ρ : Type} {name : String} :
    ∀ {l : List (FileInfo ρ)} {j : Nat}, fileIndex name l = some j → j < l.length := by
  intro l
  induction l with
  | nil => intro j h; simp [fileIndex] at h
  | cons f rest ih =>
      intro j h
      by_cases hf : f.name = name
      · simp [fileIndex, hf] at h
        simp only [List.length_cons]
        omega
      · simp [fileIndex, hf] at h
        obtain ⟨a, ha, rfl⟩ := h
        exact Nat.succ_lt_succ (ih ha)

/-- Helper: a successful catalog lookup returns the ordinal of a file with
the looked-up name. -/
theorem fileIndex_name {ρ : Type} {name : String} :
    ∀ {l : List (FileInfo ρ)} {j : Nat}, fileIndex name l = some j →
      (l.getD j default).name = name := by
  intro l
  induction l with
  | nil => intro j h; simp [fileIndex] at h
  | cons f rest ih =>
      intro j h
      by_cases hf : f.name = name
      · simp [fileIndex, hf] at h
        subst h
        simpa using hf
      · simp [fileIndex, hf] at h
        obtain ⟨a, ha, rfl⟩ := h
        simpa using ih ha

/-- Helper: in a catalog with pairwise distinct file names, positions are
determined by names. -/
theorem name_getD_inj {ρ : Type} :
    ∀ (files : List (FileInfo ρ)), (files.map fun f => f.name).Nodup →
      ∀ x y, x < files.length → y < files.length →
        (files.getD x default).name = (files.getD y default).name → x = y := by
  intro files
  induction files with
  | nil => intro _ x y hx; simp at hx
  | cons f rest ih =>
      intro hnd x y hx hy hname
      simp only [List.map_cons, List.nodup_cons] at hnd
      obtain ⟨hf, hnd'⟩ := hnd
      match x, y with
      | 0, 0 => rfl
      | 0, j + 1 =>
          exfalso
          apply hf
          have hj : j < rest.length := by simpa using hy
          have : (rest.getD j default).name = f.name := by
            simpa [List.getD_cons_succ] using hname.symm
          rw [← this]
          exact List.mem_map_of_mem _ (by rw [List.getD_eq_getElem rest default hj]; exact List.getElem_mem hj)
      | i + 1, 0 =>
          exfalso
          apply hf
          have hi2 : i < rest.length := by simpa using hx
          have : (rest.getD i default).name = f.name := by
            simpa [List.getD_cons_succ] using hname
          rw [← this]
          exact List.mem_map_of_mem _ (by rw [List.getD_eq_getElem rest default hi2]; exact List.getElem_mem hi2)
      | i + 1, j + 1 =>
          have := ih hnd' i j (by simpa using hx) (by simpa using hy)
            (by simpa [List.getD_cons_succ] using hname)
          omega

/-- Helper: `filterMap` over a pointwise-equal function. -/
theorem filterMap_congr_mem {α β : Type} {f g : α → Option β} :
    ∀ {l : List α}, (∀ a ∈ l, f a = g a) → l.filterMap f = l.filterMap g := by
  intro l
  induction l with
  | nil => intro _; rfl
  | cons a l ih =>
      intro h
      simp only [List.filterMap_cons, h a (List.mem_cons_self a l),
        ih fun x hx => h x (List.mem_cons_of_mem a hx)]

/-- Helper: filtering an interval for a single index keeps exactly that
index's image when it lies in the interval. -/
theorem filterMap_ite_eq_range' {α : Type} (g : Nat → α) (i : Nat) :
    ∀ (n s : Nat),
      (List.range' s n).filterMap (fun x => if x = i then some (g x) else none)
        = if s ≤ i ∧ i < s + n then [g i] else [] := by
  intro n
  induction n with
  | zero => intro s; rw [if_neg (by omega)]; rfl
  | succ n ih =>
      intro s
      rw [List.range'_succ, List.filterMap_cons]
      by_cases hsi : s = i
      · subst hsi
        rw [if_pos rfl, ih, if_neg (by omega), if_pos (by omega)]
      · rw [if_neg hsi, ih,
          if_congr (by omega : (s + 1 ≤ i ∧ i < s + 1 + n) ↔ (s ≤ i ∧ i < s + (n + 1))) rfl rfl]

/-- C2: for an event whose start and end file resolve to ordinals `si` and
`ei` in a catalog with distinct file names, the export range-expansion gives
each catalog file with ordinal `i ∈ [si, ei]` exactly one range — with
`start_row` overridden at the start file, `end_row` overridden at the end
file, and the full `[1, row_count]` span for files strictly between — and
gives files outside `[si, ei]` no range at all. -/
theorem c2_range_expansion {ρ : Type} (files : List (FileInfo ρ)) (e : EventRecord)
    (hnd : (files.map fun f => f.name).Nodup)
    (si ei : Nat)
    (hs : fileIndex e.start_file files = some si)
    (he : fileIndex e.end_file files = some ei)
    (i : Nat) (hi : i < files.length)
    (L : List (String × RowRange))
    (hL : expandEvent files e = Except.ok L) :
    rangesFor L (files.getD i default).name
      = if si ≤ i ∧ i ≤ ei then
          [{ event_type := e.event_type
             start_row := if i = si then e.start_row else 1
             end_row :=
               if i = ei then e.end_row
               else ((files.getD i default).row_count : Int) }]
        else [] := by
  simp only [expandEvent, hs, he, Except.ok.injEq] at hL
  subst hL
  unfold rangesFor
  rw [List.filterMap_map]
  have hstep : ∀ x ∈ List.range' si (ei + 1 - si),
      ((fun p : String × RowRange =>
          if p.1 = (files.getD i default).name then some p.2 else none) ∘
        (fun file_idx =>
          ((files.getD file_idx default).name, eventRangeAt files e si ei file_idx))) x
      = (fun x => if x = i then some (eventRangeAt files e si ei x) else none) x := by
    intro x hx
    have hxlt : x < files.length := by
      have hx' := List.mem_range'_1.mp hx
      have := fileIndex_lt he
      omega
    simp only [Function.comp_apply]
    by_cases hxi : x = i
    · subst hxi
      rw [if_pos rfl, if_pos rfl]
    · have hne : (files.getD x default).name ≠ (files.getD i default).name := by
        intro hcontra
        exact hxi (name_getD_inj files hnd x i hxlt hi hcontra)
      rw [if_neg hne, if_neg hxi]
  rw [filterMap_congr_mem hstep, filterMap_ite_eq_range',
    if_congr (by omega : (si ≤ i ∧ i < si + (ei + 1 - si)) ↔ (si ≤ i ∧ i ≤ ei)) rfl rfl]
  by_cases hin : si ≤ i ∧ i ≤ ei
  · rw [if_pos hin, if_pos hin]
    rfl
  · rw [if_neg hin, if_neg hin]

/-- Witness for C2 on the concrete two-file catalog and its spanning event:
the start file (ordinal 0) receives exactly the range `[2, 3]`. -/
theorem c2_witness :
    rangesFor
        [("Rec1901010000.csv", ⟨"overflow", 2, 3⟩),
         ("Rec1901010100.csv", ⟨"overflow", 1, 2⟩)]
        (twoFileCatalog.files.getD 0 default).name
      = if 0 ≤ 0 ∧ 0 ≤ 1 then
          [{ event_type := spanEvent.event_type
             start_row := if 0 = 0 then spanEvent.start_row else 1
             end_row :=
               if 0 = 1 then spanEvent.end_row
               else ((twoFileCatalog.files.getD 0 default).row_count : Int) }]
        else [] :=
  c2_range_expansion twoFileCatalog.files spanEvent (by decide) 0 1 (by decide)
    (by decide) 0 (by decide) _ (by decide)

/-- Helper: ranges that are all empty after clipping leave the marking state
untouched (every iteration takes the `start_idx > end_idx: continue` path). -/
theorem applyRanges_skip (n : Nat) :
    ∀ (rs : List RowRange) (st : MarkState),
      (∀ r ∈ rs, clipStart r > clipEnd r n) → applyRanges n rs st = Except.ok st := by
  intro rs
  induction rs with
  | nil => intro st _; rfl
  | cons r rest ih =>
      intro st h
      have hr : clipStart r > clipEnd r n := h r (List.mem_cons_self r rest)
      simp only [applyRanges]
      rw [if_pos hr]
      exact ih st fun x hx => h x (List.mem_cons_of_mem r hx)

/-- C8: export writes nothing for a catalog file when no range maps to it,
and also when ranges map to it but every range is empty after clipping to the
file's actual data rows — the file is skipped entirely, with neither an
annotated copy nor a filtered subset emitted.  (A file whose re-read frame is
empty falls under the second arm: every clipped range is empty against zero
rows.) -/
theorem c8_skip_untouched_files {ρ : Type} (outDir : String) (info : FileInfo ρ)
    (ranges : List RowRange)
    (h : ranges = [] ∨ ∀ r ∈ ranges, clipStart r > clipEnd r info.data.length) :
    exportForFile outDir info ranges = Except.ok [] := by
  rcases h with h | h
  · subst h
    rfl
  · by_cases hre : ranges.isEmpty = true
    · simp only [exportForFile]
      rw [if_pos hre]
    · by_cases hde : info.data.isEmpty = true
      · simp only [exportForFile]
        rw [if_neg hre, if_pos hde]
      · simp only [exportForFile]
        rw [if_neg hre, if_neg hde]
        rw [applyRanges_skip info.data.length ranges _ h]
        rfl

/-- Witness for C8: a range lying entirely beyond the three data rows of the
concrete file is clipped to emptiness and the file is skipped. -/
theorem c8_witness : exportForFile "out" fileA [⟨"overflow", 5, 9⟩] = Except.ok [] :=
  c8_skip_untouched_files "out" fileA [⟨"overflow", 5, 9⟩]
    (Or.inr (by decide))

/-- Helper: `linspaceIdx` emits exactly `tk` indices. -/
theorem linspaceIdx_length (n tk : Nat) : (linspaceIdx n tk).length = tk := by
  simp [linspaceIdx]

/-- Helper: every linspace index is a valid 0-based index of the chunk, once
the number of requested points does not exceed the chunk length. -/
theorem linspaceIdx_lt {n tk : Nat} (htk : tk ≤ n) (hn : 0 < n) :
    ∀ i ∈ linspaceIdx n tk, i < n := by
  intro i hi
  simp only [linspaceIdx, List.mem_map, List.mem_range] at hi
  obtain ⟨k, hk, rfl⟩ := hi
  by_cases ht1 : tk - 1 = 0
  · have hk0 : k = 0 := by omega
    subst hk0
    simpa [ht1] using hn
  · have h1 : k * (n - 1) ≤ (tk - 1) * (n - 1) :=
      Nat.mul_le_mul_right _ (by omega)
    have h2 : k * (n - 1) / (tk - 1) ≤ (tk - 1) * (n - 1) / (tk - 1) :=
      Nat.div_le_div_right h1
    have h3 : (tk - 1) * (n - 1) / (tk - 1) = n - 1 :=
      Nat.mul_div_cancel_left _ (Nat.pos_of_ne_zero ht1)
    omega

/-- Helper: linspace indices are strictly increasing when the number of
requested points does not exceed the chunk length (the idealized real step
`(n-1)/(tk-1)` is at least 1). -/
theorem linspaceIdx_chain {n tk : Nat} (htk : tk ≤ n) :
    List.Chain' (· < ·) (linspaceIdx n tk) := by
  unfold linspaceIdx
  rw [List.chain'_map]
  match tk, htk with
  | 0, _ => simp
  | tk' + 1, htk =>
    rw [List.chain'_range_succ]
    intro m hm
    simp only [Nat.add_sub_cancel]
    have hd : 0 < tk' := by omega
    calc m * (n - 1) / tk'
        < m * (n - 1) / tk' + 1 := Nat.lt_succ_self _
      _ = (m * (n - 1) + tk') / tk' := (Nat.add_div_right _ hd).symm
      _ ≤ (m * (n - 1) + (n - 1)) / tk' := Nat.div_le_div_right (by omega)
      _ = (m + 1) * (n - 1) / tk' := by rw [Nat.succ_mul]

/-- Helper: asking for exactly as many points as the chunk has rows selects
every row once, in order. -/
theorem linspaceIdx_self (n : Nat) : linspaceIdx n n = List.range n := by
  unfold linspaceIdx
  have h : ∀ k ∈ List.range n, k * (n - 1) / (n - 1) = (fun k : Nat => k) k := by
    intro k hk
    by_cases hn : n - 1 = 0
    · have hk0 : k = 0 := by simp only [List.mem_range] at hk; omega
      subst hk0
      simp
    · exact Nat.mul_div_cancel k (Nat.pos_of_ne_zero hn)
  rw [List.map_congr_left h, List.map_id']

/-- The sampler invariant: the emitted count matches the buffer length and
never exceeds the budget, row numbers are strictly increasing, and all of
them are bounded by the rows consumed so far. -/
def SInv (sp : Nat) (st : SamplerState) : Prop :=
  st.sampled_rows = st.sample.length ∧
  st.sampled_rows ≤ sp ∧
  List.Chain' (· < ·) (st.sample.map Prod.fst) ∧
  ∀ p ∈ st.sample, p.1 ≤ st.offset

/-- Helper: one chunk iteration preserves the sampler invariant. -/
theorem processChunk_inv (sp cols : Nat) {st : SamplerState} (chunk : List Row)
    (h : SInv sp st) : SInv sp (processChunk sp cols st chunk) := by
  obtain ⟨hlen, hle, hchain, hbound⟩ := h
  simp only [processChunk]
  by_cases h1 : numericEmpty cols chunk = true
  · rw [if_pos h1]
    exact ⟨hlen, hle, hchain, fun p hp =>
      le_trans (hbound p hp) (Nat.le_add_right _ _)⟩
  · rw [if_neg h1]
    by_cases h2 : st.sampled_rows < sp
    · rw [if_pos h2]
      by_cases h3 : 0 < min chunk.length (sp - st.sampled_rows)
      · rw [if_pos h3]
        have htk_len : min chunk.length (sp - st.sampled_rows) ≤ chunk.length :=
          Nat.min_le_left _ _
        have hcl : 0 < chunk.length := by omega
        refine ⟨?_, ?_, ?_, ?_⟩
        · simp [hlen]
        · simp only [List.length_map, linspaceIdx_length]
          omega
        · rw [List.map_append, List.chain'_append]
          refine ⟨hchain, ?_, ?_⟩
          · simp only [List.map_map]
            have hc := linspaceIdx_chain htk_len
            rw [List.chain'_map]
            exact hc.imp fun a b hab => by
              simp only [Function.comp_apply]
              omega
          · intro x hx y hy
            have hx' := List.mem_of_mem_getLast? hx
            have hy' := List.mem_of_mem_head? hy
            simp only [List.mem_map] at hx' hy'
            obtain ⟨p, hp, rfl⟩ := hx'
            obtain ⟨q, hq, rfl⟩ := hy'
            obtain ⟨i, _, rfl⟩ := hq
            have := hbound p hp
            omega
        · intro p hp
          rw [List.mem_append] at hp
          rcases hp with hp | hp
          · exact le_trans (hbound p hp) (Nat.le_add_right _ _)
          · simp only [List.mem_map] at hp
            obtain ⟨i, hi, rfl⟩ := hp
            have := linspaceIdx_lt htk_len hcl i hi
            simp only []
            omega
      · rw [if_neg h3]
        exact ⟨hlen, hle, hchain, fun p hp =>
          le_trans (hbound p hp) (Nat.le_add_right _ _)⟩
    · rw [if_neg h2]
      exact ⟨hlen, hle, hchain, fun p hp =>
        le_trans (hbound p hp) (Nat.le_add_right _ _)⟩

/-- Helper: the invariant is preserved along the whole chunk fold. -/
theorem foldl_inv (sp cols : Nat) :
    ∀ (chunks : List (List Row)) (st : SamplerState),
      SInv sp st → SInv sp (chunks.foldl (processChunk sp cols) st) := by
  intro chunks
  induction chunks with
  | nil => intro st h; exact h
  | cons c rest ih => intro st h; exact ih _ (processChunk_inv sp cols c h)

/-- C4: for every input file and every `sample_points ≥ 1`, `chunk_size ≥ 1`,
the sampler emits at most `sample_points` rows, and the absolute 1-indexed
row numbers attached to the sample are strictly increasing — within each
chunk and across chunk boundaries alike. -/
theorem c4_sampler_budget_and_monotonic (rows : List Row)
    (samplePoints chunkSize cols : Nat)
    (hsp : 1 ≤ samplePoints) (hcs : 1 ≤ chunkSize) :
    (generateChartSample samplePoints chunkSize cols rows).sample.length ≤ samplePoints
    ∧ List.Chain' (· < ·)
        ((generateChartSample samplePoints chunkSize cols rows).sample.map Prod.fst) := by
  have h := foldl_inv samplePoints cols (chunksOf chunkSize rows) ⟨0, 0, 0, []⟩
    ⟨rfl, Nat.zero_le samplePoints, List.chain'_nil, by intro p hp; cases hp⟩
  simp only [generateChartSample]
  exact ⟨h.1 ▸ h.2.1, h.2.2.1⟩

/-- Witness for C4 on a concrete seven-row file sampled three points at a
time in chunks of two. -/
theorem c4_witness :
    (generateChartSample 3 2 1 [[Cell.numC 1], [Cell.numC 2], [Cell.numC 3],
        [Cell.numC 4], [Cell.numC 5], [Cell.numC 6], [Cell.numC 7]]).sample.length ≤ 3
    ∧ List.Chain' (· < ·)
        ((generateChartSample 3 2 1 [[Cell.numC 1], [Cell.numC 2], [Cell.numC 3],
          [Cell.numC 4], [Cell.numC 5], [Cell.numC 6], [Cell.numC 7]]).sample.map Prod.fst) :=
  c4_sampler_budget_and_monotonic _ 3 2 1 (by decide) (by decide)

/-- Helper equation: chunking the empty list yields no chunks. -/
theorem chunksOf_nil {α : Type} (k : Nat) : chunksOf k ([] : List α) = [] := by
  simp [chunksOf]

/-- Helper equation: chunking a non-empty list takes one chunk and recurses. -/
theorem chunksOf_cons {α : Type} (k : Nat) (x : α) (xs : List α) (hk : k ≠ 0) :
    chunksOf k (x :: xs) = (x :: xs).take k :: chunksOf k ((x :: xs).drop k) := by
  rw [chunksOf]
  simp [hk]

/-- Helper: `sumLen` of a cons. -/
theorem sumLen_cons (c : List Row) (cs : List (List Row)) :
    sumLen (c :: cs) = c.length + sumLen cs := by
  simp [sumLen]

/-- Helper: the chunks of a list partition exactly its elements. -/
theorem sumLen_chunksOf (k : Nat) (hk : 1 ≤ k) :
    ∀ (n : Nat) (xs : List Row), xs.length ≤ n → sumLen (chunksOf k xs) = xs.length := by
  intro n
  induction n with
  | zero =>
      intro xs hxs
      have hx : xs = [] := by
        cases xs with
        | nil => rfl
        | cons a l => simp at hxs
      subst hx
      simp [chunksOf_nil, sumLen]
  | succ n ih =>
      intro xs hxs
      cases xs with
      | nil => simp [chunksOf_nil, sumLen]
      | cons x rest =>
          rw [chunksOf_cons k x rest (by omega), sumLen_cons]
          have hdrop : ((x :: rest).drop k).length ≤ n := by
            simp only [List.length_drop, List.length_cons]
            simp only [List.length_cons] at hxs
            omega
          rw [ih ((x :: rest).drop k) hdrop]
          simp only [List.length_take, List.length_drop, List.length_cons]
          omega

/-- Helper: `getD` through `drop`. -/
theorem getD_drop {α : Type} (l : List α) (d : α) (k n : Nat) :
    (l.drop k).getD n d = l.getD (k + n) d := by
  simp [List.getD_eq_getElem?_getD, List.getElem?_drop]

/-- Helper: `getD` through `take`, inside the taken prefix. -/
theorem getD_take {α : Type} (l : List α) (d : α) (k n : Nat) (h : n < k) :
    (l.take k).getD n d = l.getD n d := by
  simp [List.getD_eq_getElem?_getD, List.getElem?_take, h]

/-- Helper: position `i` of chunk `m` is position `sumLen(first m chunks) + i`
of the original row list — the sampler's absolute row indexing is exactly
file-order indexing. -/
theorem chunksOf_getD (k : Nat) (hk : 1 ≤ k) :
    ∀ (n : Nat) (xs : List Row) (m i : Nat), xs.length ≤ n →
      m < (chunksOf k xs).length → i < ((chunksOf k xs).getD m []).length →
      xs.getD (sumLen ((chunksOf k xs).take m) + i) []
        = ((chunksOf k xs).getD m []).getD i [] := by
  intro n
  induction n with
  | zero =>
      intro xs m i hxs hm _
      have hx : xs = [] := by
        cases xs with
        | nil => rfl
        | cons a l => simp at hxs
      subst hx
      rw [chunksOf_nil] at hm
      simp at hm
  | succ n ih =>
      intro xs m i hxs hm hi
      cases xs with
      | nil =>
          rw [chunksOf_nil] at hm
          simp at hm
      | cons x rest =>
          rw [chunksOf_cons k x rest (by omega)] at hm hi ⊢
          match m with
          | 0 =>
              simp only [List.take_zero, List.getD_cons_zero] at hi ⊢
              have hsum0 : sumLen [] = 0 := rfl
              rw [hsum0, Nat.zero_add]
              have hik : i < k := by
                simp only [List.length_take] at hi
                omega
              exact (getD_take (x :: rest) [] k i hik).symm
          | m' + 1 =>
              simp only [List.getD_cons_succ] at hi ⊢
              have hm' : m' < (chunksOf k ((x :: rest).drop k)).length := by
                simp only [List.length_cons] at hm
                omega
              have hdrop_ne : (x :: rest).drop k ≠ [] := by
                intro hd
                rw [hd, chunksOf_nil] at hm'
                simp at hm'
              have hklen : k < (x :: rest).length := by
                have h0 : 0 < ((x :: rest).drop k).length := List.length_pos.mpr hdrop_ne
                simp only [List.length_drop] at h0
                omega
              have hdroplen : ((x :: rest).drop k).length ≤ n := by
                simp only [List.length_drop, List.length_cons]
                simp only [List.length_cons] at hxs
                omega
              have hrec := ih ((x :: rest).drop k) m' i hdroplen hm' hi
              rw [List.take_cons (Nat.succ_pos m'), sumLen_cons]
              simp only [Nat.succ_sub_one]
              have htklen : ((x :: rest).take k).length = k := by
                simp only [List.length_take]
                omega
              rw [htklen]
              have harith :
                  k + sumLen ((chunksOf k ((x :: rest).drop k)).take m') + i
                    = k + (sumLen ((chunksOf k ((x :: rest).drop k)).take m') + i) := by
                omega
              rw [harith, ← getD_drop (x :: rest) [] k]
              exact hrec

/-- Helper: while the rows still to be consumed cannot fill the budget, every
chunk's `take` equals its full length and the sampler emits every row of every
non-skipped chunk — the fold computes `fullSample`. -/
theorem foldl_dense (sp cols : Nat) :
    ∀ (chunks : List (List Row)) (st : SamplerState),
      st.sampled_rows ≤ st.offset →
      st.offset + sumLen chunks < sp →
      (chunks.foldl (processChunk sp cols) st).sample
        = st.sample ++ fullSample cols st.offset chunks := by
  intro chunks
  induction chunks with
  | nil => intro st _ _; simp [fullSample]
  | cons c rest ih =>
      intro st hso hlt
      rw [sumLen_cons] at hlt
      simp only [List.foldl_cons]
      by_cases h1 : numericEmpty cols c = true
      · have hstep : processChunk sp cols st c =
            { st with total_rows := st.total_rows + c.length,
                      offset := st.offset + c.length } := by
          simp only [processChunk]
          rw [if_pos h1]
        rw [hstep, ih _ (by simpa using le_trans hso (Nat.le_add_right _ _))
          (by simpa using (by omega : st.offset + c.length + sumLen rest < sp))]
        simp [fullSample, h1]
      · have hlen_pos : 0 < c.length := by
          by_contra hcon
          push_neg at hcon
          have hcnil : c = [] := List.length_eq_zero.mp (by omega)
          subst hcnil
          simp [numericEmpty] at h1
        have hsp2 : st.sampled_rows < sp := by omega
        have htake : min c.length (sp - st.sampled_rows) = c.length :=
          Nat.min_eq_left (by omega)
        have hpos : 0 < min c.length (sp - st.sampled_rows) := by
          rw [htake]
          exact hlen_pos
        have hstep : processChunk sp cols st c =
            { total_rows := st.total_rows + c.length,
              sampled_rows := st.sampled_rows + c.length,
              offset := st.offset + c.length,
              sample := st.sample ++ (List.range c.length).map fun i =>
                (st.offset + i + 1, projectRow cols c (c.getD i [])) } := by
          simp only [processChunk]
          rw [if_neg h1, if_pos hsp2, if_pos hpos, htake, linspaceIdx_self]
          simp
        rw [hstep, ih _ (by simpa using Nat.add_le_add_right hso c.length)
          (by simpa using (by omega : st.offset + c.length + sumLen rest < sp))]
        simp only [fullSample]
        rw [if_neg (by simp [h1])]
        simp [List.append_assoc]

/-- Helper: a row that actually carries a numeric value in a numeric column
of its chunk prevents the chunk's numeric projection being empty. -/
theorem numericEmpty_false_of_value {cols : Nat} {c : List Row} {i : Nat}
    (hi : i < c.length) (h : rowHasNumericValue cols c i) :
    numericEmpty cols c = false := by
  obtain ⟨j, hj, hcol, _, _⟩ := h
  have hcne : ¬c.isEmpty = true := by
    cases c with
    | nil => simp at hi
    | cons a l => simp
  simp only [numericEmpty, Bool.or_eq_false_iff]
  constructor
  · simpa using hcne
  · rw [List.all_eq_false]
    exact ⟨j, by simp [hj], by simp [hcol]⟩

/-- Helper: the full sample contains the absolute row number of each row of
each non-skipped chunk. -/
theorem mem_fullSample (cols : Nat) :
    ∀ (chunks : List (List Row)) (offset m i : Nat),
      m < chunks.length → i < (chunks.getD m []).length →
      numericEmpty cols (chunks.getD m []) = false →
      (offset + sumLen (chunks.take m) + i + 1)
        ∈ (fullSample cols offset chunks).map Prod.fst := by
  intro chunks
  induction chunks with
  | nil => intro offset m i hm; simp at hm
  | cons c rest ih =>
      intro offset m i hm hi hne
      match m with
      | 0 =>
          simp only [List.getD_cons_zero] at hi hne
          simp only [fullSample, List.map_append]
          apply List.mem_append_left
          rw [if_neg (by simp [hne])]
          simp only [List.map_map, List.mem_map, List.mem_range]
          refine ⟨i, hi, ?_⟩
          simp only [Function.comp_apply]
          have hsum0 : sumLen (List.take 0 (c :: rest)) = 0 := rfl
          rw [hsum0]
          omega
      | m' + 1 =>
          simp only [List.getD_cons_succ] at hi hne
          have hrec := ih (offset + c.length) m' i (by simpa using hm) hi hne
          simp only [fullSample, List.map_append]
          apply List.mem_append_right
          have harith :
              offset + sumLen ((c :: rest).take (m' + 1)) + i + 1
                = offset + c.length + sumLen (rest.take m') + i + 1 := by
            rw [List.take_cons (Nat.succ_pos m'), sumLen_cons]
            simp only [Nat.succ_sub_one]
            omega
          rw [harith]
          exact hrec

/-- C7: when a file has strictly fewer data rows than `sample_points`, every
data row that carries a numeric value in a selected column of its chunk
appears in the sample exactly once (identified by its absolute 1-indexed row
number), and that absolute position indeed addresses the very row of the
file (`sumLen` of the preceding chunks plus the in-chunk index). -/
theorem c7_small_file_every_numeric_row (rows : List Row)
    (samplePoints chunkSize cols : Nat)
    (hcs : 1 ≤ chunkSize) (hlt : rows.length < samplePoints)
    (m i : Nat)
    (hm : m < (chunksOf chunkSize rows).length)
    (hi : i < ((chunksOf chunkSize rows).getD m []).length)
    (hnum : rowHasNumericValue cols ((chunksOf chunkSize rows).getD m []) i) :
    ((generateChartSample samplePoints chunkSize cols rows).sample.map Prod.fst).count
        (sumLen ((chunksOf chunkSize rows).take m) + i + 1) = 1
    ∧ rows.getD (sumLen ((chunksOf chunkSize rows).take m) + i) []
        = ((chunksOf chunkSize rows).getD m []).getD i [] := by
  have hsum : sumLen (chunksOf chunkSize rows) = rows.length :=
    sumLen_chunksOf chunkSize hcs rows.length rows (le_refl _)
  have hdense := foldl_dense samplePoints cols (chunksOf chunkSize rows) ⟨0, 0, 0, []⟩
    (Nat.le_refl 0)
    (by show 0 + sumLen (chunksOf chunkSize rows) < samplePoints; rw [hsum]; omega)
  have hinv := foldl_inv samplePoints cols (chunksOf chunkSize rows) ⟨0, 0, 0, []⟩
    ⟨rfl, Nat.zero_le samplePoints, List.chain'_nil, by intro p hp; cases hp⟩
  have hchain := hinv.2.2.1
  rw [hdense] at hchain
  simp only [List.nil_append] at hchain
  have hnodup : ((fullSample cols 0 (chunksOf chunkSize rows)).map Prod.fst).Nodup :=
    (List.chain'_iff_pairwise.mp hchain).imp fun hab => Nat.ne_of_lt hab
  have hskip := numericEmpty_false_of_value hi hnum
  have hmem := mem_fullSample cols (chunksOf chunkSize rows) 0 m i hm hi hskip
  have h0 : 0 + sumLen ((chunksOf chunkSize rows).take m) + i + 1
      = sumLen ((chunksOf chunkSize rows).take m) + i + 1 := by omega
  rw [h0] at hmem
  constructor
  · simp only [generateChartSample]
    rw [hdense]
    simp only [List.nil_append]
    exact List.count_eq_one_of_mem hnodup hmem
  · exact chunksOf_getD chunkSize hcs rows.length rows m i (le_refl _) hm hi

/-- Witness for C7: a three-row all-numeric file, chunked in twos, sampled
with a budget of five; the third row (chunk 1, local index 0) appears exactly
once as absolute row number 3. -/
theorem c7_witness :
    ((generateChartSample 5 2 1 [[Cell.numC 1], [Cell.numC 2], [Cell.numC 3]]).sample.map
        Prod.fst).count
        (sumLen ((chunksOf 2 [[Cell.numC 1], [Cell.numC 2], [Cell.numC 3]]).take 1) + 0 + 1) = 1
    ∧ [[Cell.numC 1], [Cell.numC 2], [Cell.numC 3]].getD
        (sumLen ((chunksOf 2 [[Cell.numC 1], [Cell.numC 2], [Cell.numC 3]]).take 1) + 0) []
      = ((chunksOf 2 [[Cell.numC 1], [Cell.numC 2], [Cell.numC 3]]).getD 1 []).getD 0 [] :=
  c7_small_file_every_numeric_row [[Cell.numC 1], [Cell.numC 2], [Cell.numC 3]] 5 2 1
    (by decide) (by decide) 1 0
    (by simp [chunksOf])
    (by simp [chunksOf])
    ⟨0, by decide, by simp [chunksOf, colNumeric, cellNumericOk], 3, by simp [chunksOf]⟩

end XlsxAnnot
